import Mathlib

/-!
Shallow embedding of `src/payload_dumper.py` (an Android OTA payload dumper).
Bytes are modelled as natural numbers, byte buffers and files as `List Nat`,
and Python exceptions / `sys.exit` calls as an explicit error type.  External
library calls (bz2 / brotli / lzma / zstandard decompression, hashlib's
SHA-256) are passed in as function parameters, since their code is not part
of this repository; everything that the repository itself computes is
translated definition-by-definition from the Python source.
-/

namespace PayloadDumper

/-- Failure modes of the dumper.  Each constructor corresponds to a concrete
Python failure: the `assert` on a data hash (line 80), the `sys.exit` calls
(lines 103, 112, 137), the `ValueError` for a bad patch magic (line 49), the
`ValueError("8 bytes expected")` raised by `bsdiff4.core.decode_int64` on a
slice that is not exactly 8 bytes long, the `TypeError` obtained by using
`None` (the fall-through result of `bsdf2_decompress`) as a byte buffer, an
`IndexError` on `dst_extents[0]` or `magic[5]`, a codec library failure, and
the patch applier's two failure modes.  `misalignedControl` is the dedicated
misaligned-control-stream error claimed by the specification; the code has no
raise site for it. -/
inductive Err where
  | assertHashMismatch
  | sysExit (code : Int)
  | invalidMagic
  | eightBytesExpected
  | typeErrorNone
  | indexError
  | codecError
  | misalignedControl
  | patchLengthMismatch
  | patchStreamExhausted
deriving DecidableEq, Repr

deriving instance DecidableEq for Except

/-- An extent of the update manifest: a run of `num_blocks` fixed-size blocks
starting at block index `start_block`. -/
structure Extent where
  start_block : Nat
  num_blocks : Nat
deriving DecidableEq, Repr

/-- Operation kinds dispatched by `data_for_op` (lines 82-137).  `other n`
stands for any numeric operation type the `if/elif` chain does not handle. -/
inductive OpType where
  | REPLACE
  | REPLACE_BZ
  | REPLACE_XZ
  | ZSTD
  | ZERO
  | SOURCE_COPY
  | SOURCE_BSDIFF
  | BROTLI_BSDIFF
  | other (n : Nat)
deriving DecidableEq, Repr

/-- An `InstallOperation` of the manifest, with the fields `data_for_op`
reads.  `data_sha256_hash = []` models an absent/empty hash field (Python
tests the field for truthiness, and an empty bytes value is falsy). -/
structure InstallOp where
  type : OpType
  data_offset : Nat
  data_length : Nat
  data_sha256_hash : List Nat
  src_extents : List Extent
  dst_extents : List Extent
deriving DecidableEq, Repr

/-- A `PartitionUpdate`: its name and operation list (used by `dump_part`). -/
structure Part where
  partition_name : String
  operations : List InstallOp
deriving DecidableEq, Repr

/-- The module-level context of the script: the payload file contents, the
`data_offset` computed after the header parse, `block_size` from the
manifest, the `--diff` flag, and the external library functions used by
`data_for_op` (decompressors may fail, SHA-256 is total). -/
structure Ctx where
  payload : List Nat
  dataOffset : Nat
  blockSize : Nat
  diffMode : Bool
  bz2d : List Nat → Except Err (List Nat)
  brd : List Nat → Except Err (List Nat)
  lzmad : List Nat → Except Err (List Nat)
  zstdd : List Nat → Except Err (List Nat)
  sha256 : List Nat → List Nat

/-- The mutable file state threaded through an operation: the partition's
output image and the (differential-mode) source image. -/
structure St where
  out : List Nat
  old : List Nat
deriving DecidableEq, Repr

/-- Reading `n` bytes at absolute position `p` from a file: a `seek(p)`
followed by `read(n)`.  Like Python, a read at or past end of file returns
the (possibly empty) bytes that are actually available. -/
def readAt (f : List Nat) (p n : Nat) : List Nat :=
  (f.drop p).take n

/-- Reading with a signed length, as `fi.read(len_control)` does with the
decoded `int64` lengths: a negative argument makes Python read the whole
rest of the file. -/
def readAtI (f : List Nat) (p : Nat) (n : Int) : List Nat :=
  if n < 0 then f.drop p else readAt f p n.toNat

/-- Writing a non-empty buffer `bs` at absolute position `p` of file `f`:
the seek gap past end of file is zero-filled, then the buffer overwrites
the `bs.length` bytes starting at `p`. -/
def writeAtPad (f : List Nat) (p : Nat) (bs : List Nat) : List Nat :=
  (f ++ List.replicate (p - f.length) 0).take p ++ bs ++
    (f ++ List.replicate (p - f.length) 0).drop (p + bs.length)

/-- Writing the buffer `bs` at absolute position `p` of file `f`: a
`seek(p)` followed by `write(bs)`.  Writing zero bytes changes nothing (in
particular a seek past end of file alone does not extend the file);
writing a non-empty buffer zero-fills any seek gap first, as POSIX files
do. -/
def writeAt (f : List Nat) (p : Nat) (bs : List Nat) : List Nat :=
  if bs = [] then f else writeAtPad f p bs

/-- Concatenation of a list of byte buffers (Python's sequential
`tmp_buff.write` loop / the flat source-data buffer). -/
def joinAll : List (List Nat) → List Nat
  | [] => []
  | a :: r => a ++ joinAll r

/-- The classic bsdiff magic `bsdiff4.format.MAGIC`, the bytes of
`b"BSDIFF40"`. -/
def MAGIC : List Nat := [66, 83, 68, 73, 70, 70, 52, 48]

/-- The extended magic prefix `BSDF2_MAGIC = b"BSDF2"` (line 21). -/
def BSDF2_MAGIC : List Nat := [66, 83, 68, 70, 50]

/-- Pure value of `bsdiff4.core.decode_int64` on an 8-byte buffer:
little-endian magnitude over bytes 0..6 plus the low 7 bits of byte 7, with
byte 7's top bit as a sign flag (sign-magnitude encoding). -/
def decodeInt64P (b : List Nat) : Int :=
  let m : Nat :=
    b.getD 0 0 + 256 * b.getD 1 0 + 256 ^ 2 * b.getD 2 0 + 256 ^ 3 * b.getD 3 0 +
      256 ^ 4 * b.getD 4 0 + 256 ^ 5 * b.getD 5 0 + 256 ^ 6 * b.getD 6 0 +
      256 ^ 7 * (b.getD 7 0 % 128)
  if 128 ≤ b.getD 7 0 then -(m : Int) else (m : Int)

/-- The library function `bsdiff4.core.decode_int64`: it raises
`ValueError("8 bytes expected")` unless its argument is exactly 8 bytes,
and otherwise decodes it as a sign-magnitude little-endian 64-bit value. -/
def decode_int64 (b : List Nat) : Except Err Int :=
  if b.length = 8 then .ok (decodeInt64P b) else .error .eightBytesExpected

/-- Magic dispatch of `bsdf2_read_patch` (lines 41-49): the full classic
magic selects codec 1 (bzip2) for all three streams; a buffer whose first
five bytes are `BSDF2` takes the three codec numbers from bytes 5, 6 and 7
(an `IndexError` if the buffer is shorter); anything else raises
`ValueError("Invalid bsdiff/BSDF2 magic signature")`. -/
def parseMagic (magic : List Nat) : Except Err (Nat × Nat × Nat) :=
  if magic = MAGIC then .ok (1, 1, 1)
  else if magic.take 5 = BSDF2_MAGIC then
    match magic[5]?, magic[6]?, magic[7]? with
    | some a, some b, some c => .ok (a, b, c)
    | _, _, _ => .error .indexError
  else .error .invalidMagic

/-- The helper `bsdf2_decompress` (lines 31-37): algorithm 0 is a
passthrough, 1 is bz2, 2 is brotli, and any other algorithm number falls
off the end of the `if/elif` chain, so the function returns Python `None`,
modelled as `none` (and never an error of its own). -/
def bsdf2_decompress (bz2d brd : List Nat → Except Err (List Nat))
    (alg : Nat) (data : List Nat) : Except Err (Option (List Nat)) :=
  if alg = 0 then .ok (some data)
  else if alg = 1 then (bz2d data).map some
  else if alg = 2 then (brd data).map some
  else .ok none

/-- Using a possibly-`None` Python value as a byte buffer (`len(bcontrol)`
in the control-stream comprehension, or passing it into
`bsdiff4.core.patch`) raises a `TypeError`. -/
def expectSome {α : Type} (o : Option α) : Except Err α :=
  match o with
  | some a => .ok a
  | none => .error .typeErrorNone

/-- Decoding loop of the decompressed control stream, written with an
explicit step budget so that it is structurally recursive: each loop step
consumes at least one list element, so any budget of at least the buffer
length makes the zero-budget arm unreachable. -/
def decodeControlGo : Nat → List Nat → Except Err (List (Int × Int × Int))
  | _, [] => .ok []
  | 0, _ :: _ => .error .eightBytesExpected
  | fuel + 1, h :: t =>
    match decode_int64 ((h :: t).take 8) with
    | .error e => .error e
    | .ok x =>
      match decode_int64 (((h :: t).drop 8).take 8) with
      | .error e => .error e
      | .ok y =>
        match decode_int64 (((h :: t).drop 16).take 8) with
        | .error e => .error e
        | .ok z =>
          match decodeControlGo fuel ((h :: t).drop 24) with
          | .error e => .error e
          | .ok rest => .ok ((x, y, z) :: rest)

/-- Decoding of the decompressed control stream (lines 56-59): the list
comprehension walks the buffer in steps of 24 and decodes the three 8-byte
slices `b[i:i+8]`, `b[i+8:i+16]`, `b[i+16:i+24]` of each step with
`decode_int64`, which fails on a short final slice. -/
def decodeControl (b : List Nat) : Except Err (List (Int × Int × Int)) :=
  decodeControlGo b.length b

/-- Step-budgeted pure partition of a control buffer into decoded records
(same budget discipline as `decodeControlGo`). -/
def ctrlRecordsGo : Nat → List Nat → List (Int × Int × Int)
  | _, [] => []
  | 0, _ :: _ => []
  | fuel + 1, h :: t =>
    (decodeInt64P ((h :: t).take 8), decodeInt64P (((h :: t).drop 8).take 8),
      decodeInt64P (((h :: t).drop 16).take 8)) :: ctrlRecordsGo fuel ((h :: t).drop 24)

/-- Pure partition of a 24-byte-aligned control buffer into decoded
`(copy_len, extra_len, seek_len)` records, used to state what
`decodeControl` returns on aligned input. -/
def ctrlRecords (b : List Nat) : List (Int × Int × Int) :=
  ctrlRecordsGo b.length b

/-- Loop body of `verify_contiguous` (lines 65-73), carrying the running
`blocks` counter. -/
def verify_contiguousAux : List Extent → Nat → Bool
  | [], _ => true
  | e :: rest, blocks =>
    if e.start_block ≠ blocks then false
    else verify_contiguousAux rest (blocks + e.num_blocks)

/-- The function `verify_contiguous` of the source: checks that every
extent starts exactly where the previous extents end, starting from block
0. -/
def verify_contiguous (exts : List Extent) : Bool :=
  verify_contiguousAux exts 0

/-- The ascending list `[s, s+1, ..., s+n-1]`, used to state the coverage
semantics of extents. -/
def natsFrom (s n : Nat) : List Nat :=
  (List.range n).map (fun i => s + i)

/-- The blocks covered by a list of extents, in appearance order. -/
def blocksOf (exts : List Extent) : List Nat :=
  joinAll (exts.map fun e => natsFrom e.start_block e.num_blocks)

/-- Total number of blocks of a list of extents. -/
def totalBlocks (exts : List Extent) : Nat :=
  (exts.map fun e => e.num_blocks).sum

/-- The function `bsdf2_read_patch` (lines 39-63): reads the 8-byte magic,
the three `int64` length fields, then the control stream (decompressed and
decoded into control tuples), the diff stream and the extra stream.  The
stream cursor advances by the number of bytes each `read` actually
returned.  The decompressed diff and extra buffers are returned as options
because `bsdf2_decompress` yields Python `None` for an unknown algorithm
number; only the control buffer is immediately used as a buffer (via
`len`), which faults on `None`. -/
def bsdf2_read_patch (bz2d brd : List Nat → Except Err (List Nat)) (fi : List Nat) :
    Except Err (Int × List (Int × Int × Int) × Option (List Nat) × Option (List Nat)) := do
  let magic := readAt fi 0 8
  let algs ← parseMagic magic
  let p1 := magic.length
  let r1 := readAt fi p1 8
  let len_control ← decode_int64 r1
  let r2 := readAt fi (p1 + r1.length) 8
  let len_diff ← decode_int64 r2
  let r3 := readAt fi (p1 + r1.length + r2.length) 8
  let len_dst ← decode_int64 r3
  let p4 := p1 + r1.length + r2.length + r3.length
  let rc := readAtI fi p4 len_control
  let bcontrolO ← bsdf2_decompress bz2d brd algs.1 rc
  let bcontrol ← expectSome bcontrolO
  let tcontrol ← decodeControl bcontrol
  let p5 := p4 + rc.length
  let rd := readAtI fi p5 len_diff
  let bdiff ← bsdf2_decompress bz2d brd algs.2.1 rd
  let bextra ← bsdf2_decompress bz2d brd algs.2.2 (fi.drop (p5 + rd.length))
  .ok (len_dst, tcontrol, bdiff, bextra)

/-- Modelled from the spec: the bsdiff reconstruction loop of
`bsdiff4.core.patch`, the external C extension the source calls on line 122
and whose code is not part of this repository.  Following §4.3 of the
specification: for each control tuple, the next `copy_len` diff bytes are
added byte-wise (modulo 256) to the old data at the old cursor and
appended to the output, then `extra_len` extra bytes are appended
verbatim, then the old cursor moves by `seek_len`; the loop stops when the
output has reached `new_data_length` bytes or the control stream is
exhausted, the final length must equal `new_data_length` exactly, and any
read past the end of the old, diff or extra buffers fails. -/
def bspatchGo (old diff extra : List Nat) (lenDst : Int) :
    List (Int × Int × Int) → Int → Nat → Nat → List Nat → Except Err (List Nat)
  | [], _oldPos, _dp, _ep, acc =>
    if (acc.length : Int) = lenDst then .ok acc else .error .patchLengthMismatch
  | (cl, el, sl) :: rest, oldPos, dp, ep, acc =>
    if lenDst ≤ (acc.length : Int) then
      if (acc.length : Int) = lenDst then .ok acc else .error .patchLengthMismatch
    else
      let cln := cl.toNat
      let eln := el.toNat
      if dp + cln ≤ diff.length then
        if cln = 0 ∨ (0 ≤ oldPos ∧ oldPos + cln ≤ (old.length : Int)) then
          if ep + eln ≤ extra.length then
            let added := (List.range cln).map fun i =>
              (diff.getD (dp + i) 0 + old.getD (oldPos.toNat + i) 0) % 256
            let chunk := readAt extra ep eln
            bspatchGo old diff extra lenDst rest (oldPos + cl + sl) (dp + cln) (ep + eln)
              (acc ++ added ++ chunk)
          else .error .patchStreamExhausted
        else .error .patchStreamExhausted
      else .error .patchStreamExhausted

/-- Modelled from the spec: entry point of the patch applier (§4.3), with
both cursors and both stream positions starting at zero and an empty
output accumulator. -/
def bspatch (old : List Nat) (lenDst : Int) (ctrl : List (Int × Int × Int))
    (diff extra : List Nat) : Except Err (List Nat) :=
  bspatchGo old diff extra lenDst ctrl 0 0 0 []

/-- Writing a decompressed (or raw) replacement buffer: the common tail of
the `REPLACE_XZ` / `ZSTD` / `REPLACE_BZ` / `REPLACE` branches, which seek
the output file to `dst_extents[0]`'s byte offset and write the buffer
there.  `dst_extents[0]` on an empty list is an `IndexError`. -/
def replace_write (c : Ctx) (op : InstallOp) (st : St) (dec : List Nat) :
    Except (Err × St) (St × List Nat) :=
  match op.dst_extents with
  | [] => .error (.indexError, st)
  | d0 :: _ =>
    .ok ({ st with out := writeAt st.out (d0.start_block * c.blockSize) dec }, dec)

/-- The `SOURCE_BSDIFF` / `BROTLI_BSDIFF` branch (lines 109-130): outside
differential mode it prints and exits with status -3; otherwise it
concatenates the source extents into a flat old-data buffer, decodes the
patch with `bsdf2_read_patch`, applies `bsdiff4.core.patch`, writes the
result over the beginning of the temporary buffer (whose tail keeps any
remaining old bytes), and distributes the buffer over `dst_extents`,
reading block-counted slices at the running block index `n` and writing
each at its destination extent's byte offset. -/
def source_bsdiff_branch (c : Ctx) (op : InstallOp) (data : List Nat) (st : St) :
    Except (Err × St) (St × List Nat) :=
  if c.diffMode = false then .error (.sysExit (-3), st)
  else
    match op.dst_extents with
    | [] => .error (.indexError, st)
    | _d0 :: _ =>
      let old_data := joinAll (op.src_extents.map fun e =>
        readAt st.old (e.start_block * c.blockSize) (e.num_blocks * c.blockSize))
      match bsdf2_read_patch c.bz2d c.brd data with
      | .error e => .error (e, st)
      | .ok (len_dst, tcontrol, odiff, oextra) =>
        match odiff, oextra with
        | some bdiff, some bextra =>
          match bspatch old_data len_dst tcontrol bdiff bextra with
          | .error e => .error (e, st)
          | .ok patched =>
            let tmp2 := patched ++ old_data.drop patched.length
            let r := op.dst_extents.foldl (fun acc e =>
              let d := readAt tmp2 (acc.2.1 * c.blockSize) (e.num_blocks * c.blockSize)
              (writeAt acc.1 (e.start_block * c.blockSize) d, acc.2.1 + e.num_blocks, d))
              (st.out, 0, data)
            .ok ({ st with out := r.1 }, r.2.2)
        | _, _ => .error (.typeErrorNone, st)

/-- Dispatch on the operation type: the `if/elif` chain of `data_for_op`
(lines 82-137), entered after the hash gate, with `data` holding the raw
payload bytes of the operation. -/
def op_dispatch (c : Ctx) (op : InstallOp) (data : List Nat) (st : St) :
    Except (Err × St) (St × List Nat) :=
  match op.type with
  | .REPLACE_XZ =>
    match c.lzmad data with
    | .error e => .error (e, st)
    | .ok dec => replace_write c op st dec
  | .ZSTD =>
    match c.zstdd data with
    | .error e => .error (e, st)
    | .ok dec => replace_write c op st dec
  | .REPLACE_BZ =>
    match c.bz2d data with
    | .error e => .error (e, st)
    | .ok dec => replace_write c op st dec
  | .REPLACE => replace_write c op st data
  | .SOURCE_COPY =>
    if c.diffMode = false then .error (.sysExit (-2), st)
    else
      match op.dst_extents with
      | [] => .error (.indexError, st)
      | d0 :: _ =>
        let r := op.src_extents.foldl (fun acc e =>
          let d := readAt st.old (e.start_block * c.blockSize) (e.num_blocks * c.blockSize)
          (writeAt acc.1 acc.2.1 d, acc.2.1 + d.length, d))
          (st.out, d0.start_block * c.blockSize, data)
        .ok ({ st with out := r.1 }, r.2.2)
  | .SOURCE_BSDIFF => source_bsdiff_branch c op data st
  | .BROTLI_BSDIFF => source_bsdiff_branch c op data st
  | .ZERO =>
    .ok ({ st with out := op.dst_extents.foldl (fun o e =>
      writeAt o (e.start_block * c.blockSize)
        (List.replicate (e.num_blocks * c.blockSize) 0)) st.out }, data)
  | .other _ => .error (.sysExit (-1), st)

/-- The function `data_for_op` (lines 75-139): reads the operation's raw
payload bytes, applies the SHA-256 assertion when the hash field is
non-empty, then dispatches on the operation type.  An error carries the
file state at the moment of failure. -/
def data_for_op (c : Ctx) (op : InstallOp) (st : St) :
    Except (Err × St) (St × List Nat) :=
  let data := readAt c.payload (c.dataOffset + op.data_offset) op.data_length
  if op.data_sha256_hash ≠ [] ∧ c.sha256 data ≠ op.data_sha256_hash then
    .error (.assertHashMismatch, st)
  else op_dispatch c op data st

/-- The operation loop of `dump_part` (lines 156-158): runs `data_for_op`
over the partition's operations in order, threading the file state; the
first failure aborts the loop (there is no exception handler in the
source). -/
def runOps (c : Ctx) : List InstallOp → St → Except (Err × St) St
  | [], st => .ok st
  | op :: rest, st =>
    match data_for_op c op st with
    | .ok (st₁, _) => runOps c rest st₁
    | .error e => .error e

/-- The function `dump_part` (lines 141-163): opens the output image for
writing (truncating it to empty) and the partition's source image, then
runs the operation loop. -/
def dump_part (c : Ctx) (oldFor : String → List Nat) (p : Part) :
    Except (Err × St) St :=
  runOps c p.operations { out := [], old := oldFor p.partition_name }

/-- The main partition loop (lines 208-210): processes partitions in
order, recording each partition's final output image; any uncaught error
or `sys.exit` raised while processing a partition terminates the whole
process, so the remaining partitions are never attempted.  The error case
carries the images produced up to and including the failing partition's
partial output. -/
def runParts (c : Ctx) (oldFor : String → List Nat) :
    List Part → List (String × List Nat) →
    Except (Err × List (String × List Nat)) (List (String × List Nat))
  | [], acc => .ok acc
  | p :: rest, acc =>
    match dump_part c oldFor p with
    | .ok st => runParts c oldFor rest (acc ++ [(p.partition_name, st.out)])
    | .error (e, st) => .error (e, acc ++ [(p.partition_name, st.out)])

/-- Length of a padded positioned write: the write extends the file
exactly as far as it needs to. -/
theorem writeAtPad_length (f : List Nat) (p : Nat) (bs : List Nat) :
    (writeAtPad f p bs).length = max f.length (p + bs.length) := by
  simp [writeAtPad]
  omega

/-- Bytes of the zero-padded seek buffer. -/
theorem padded_getElem? (f : List Nat) (p i : Nat) :
    (f ++ List.replicate (p - f.length) 0)[i]? =
      if i < f.length then f[i]? else if i < p then some 0 else none := by
  rcases Nat.lt_or_ge i f.length with h | h
  · rw [List.getElem?_append_left h]
    simp [h]
  · rw [List.getElem?_append_right h]
    simp only [List.getElem?_replicate]
    rcases Nat.lt_or_ge i p with h2 | h2
    · have h3 : i - f.length < p - f.length := by omega
      simp [h3, h2, Nat.not_lt.mpr h]
    · have h3 : ¬ (i - f.length < p - f.length) := by omega
      simp [h3, h2, Nat.not_lt.mpr h, Nat.not_lt.mpr h2]

/-- Pointwise description of a positioned write: bytes before the write
position keep their old value (or the zero padding of a seek past end of
file), the written range shows the written buffer, and bytes after it are
unchanged. -/
theorem writeAtPad_getElem? (f : List Nat) (p : Nat) (bs : List Nat) (i : Nat) :
    (writeAtPad f p bs)[i]? =
      if i < p then some (f.getD i 0)
      else if i < p + bs.length then bs[i - p]?
      else f[i]? := by
  have htl : ((f ++ List.replicate (p - f.length) 0).take p).length = p := by
    simp; omega
  unfold writeAtPad
  rw [List.append_assoc]
  rcases Nat.lt_or_ge i p with h1 | h1
  · rw [List.getElem?_append_left (by omega :
      i < ((f ++ List.replicate (p - f.length) 0).take p).length)]
    rw [List.getElem?_take]
    simp only [h1, if_pos]
    rw [padded_getElem? f p i]
    rcases Nat.lt_or_ge i f.length with h2 | h2
    · simp [h2, List.getD_eq_getElem?_getD, List.getElem?_eq_getElem h2]
    · simp [h1, h2, Nat.not_lt.mpr h2, List.getD_eq_getElem?_getD,
        List.getElem?_eq_none h2]
  · rw [List.getElem?_append_right (by omega :
      ((f ++ List.replicate (p - f.length) 0).take p).length ≤ i)]
    rw [htl]
    rcases Nat.lt_or_ge i (p + bs.length) with h2 | h2
    · rw [List.getElem?_append_left (by omega : i - p < bs.length)]
      simp [Nat.not_lt.mpr h1, h2]
    · rw [List.getElem?_append_right (by omega : bs.length ≤ i - p)]
      rw [List.getElem?_drop]
      have h4 : p + bs.length + (i - p - bs.length) = i := by omega
      rw [h4, padded_getElem? f p i]
      rcases Nat.lt_or_ge i f.length with h3 | h3
      · simp [Nat.not_lt.mpr h1, Nat.not_lt.mpr h2, h3]
      · have h5 : ¬ i < p := by omega
        simp [h5, Nat.not_lt.mpr h2, Nat.not_lt.mpr h3,
          List.getElem?_eq_none h3]

/-- Two consecutive padded writes are one write of the concatenated
buffers. -/
theorem writeAtPad_append (f : List Nat) (p : Nat) (a b : List Nat) :
    writeAtPad (writeAtPad f p a) (p + a.length) b = writeAtPad f p (a ++ b) := by
  apply List.ext_getElem?
  intro i
  rw [writeAtPad_getElem? (writeAtPad f p a), writeAtPad_getElem? f p (a ++ b)]
  simp only [List.length_append]
  rcases Nat.lt_or_ge i (p + a.length) with h1 | h1
  · have h3 : i < p + (a.length + b.length) := by omega
    simp only [h1, h3, if_pos]
    rw [List.getD_eq_getElem?_getD, writeAtPad_getElem?]
    rcases Nat.lt_or_ge i p with h4 | h4
    · simp [h4]
    · simp only [Nat.not_lt.mpr h4, if_neg, if_pos, h1]
      rw [List.getElem?_append_left (by omega : i - p < a.length)]
      have h6 : i - p < a.length := by omega
      simp [h4, List.getElem?_eq_getElem h6, List.getD_eq_getElem?_getD]
  · have h4 : ¬ i < p := by omega
    simp only [Nat.not_lt.mpr h1, if_neg, h4]
    rcases Nat.lt_or_ge i (p + a.length + b.length) with h2 | h2
    · have h5 : i < p + (a.length + b.length) := by omega
      simp only [h2, h5, if_pos]
      rw [List.getElem?_append_right (by omega : a.length ≤ i - p)]
      have h7 : i - p - a.length = i - (p + a.length) := by omega
      rw [h7]
      simp
    · have h5 : ¬ i < p + (a.length + b.length) := by omega
      have h6 : ¬ i < p + a.length + b.length := by omega
      simp only [h5, h6, if_neg]
      rw [writeAtPad_getElem?]
      simp [h4, Nat.not_lt.mpr h1]

/-- Writing an empty buffer leaves the file unchanged. -/
theorem writeAt_empty (f : List Nat) (p : Nat) : writeAt f p [] = f := by
  simp [writeAt]

/-- Two consecutive writes are one write of the concatenated buffers. -/
theorem writeAt_append (f : List Nat) (p : Nat) (a b : List Nat) :
    writeAt (writeAt f p a) (p + a.length) b = writeAt f p (a ++ b) := by
  by_cases ha : a = []
  · subst ha
    simp [writeAt_empty]
  · by_cases hb : b = []
    · subst hb
      simp [writeAt_empty, writeAt]
    · have hab : a ++ b ≠ [] := by
        intro h
        exact ha (List.append_eq_nil.mp h).1
      simp only [writeAt, ha, hb, hab, if_neg, if_false]
      exact writeAtPad_append f p a b

/-- Identity codec used by the concrete example scenarios. -/
def idCodec : List Nat → Except Err (List Nat) := fun d => .ok d

/-- A concrete context for the example scenarios: empty payload, block size
1, differential mode, identity codecs, and a SHA-256 stub that maps every
buffer to `[0]`. -/
def demoCtx : Ctx :=
  { payload := []
    dataOffset := 0
    blockSize := 1
    diffMode := true
    bz2d := idCodec
    brd := idCodec
    lzmad := idCodec
    zstdd := idCodec
    sha256 := fun _ => [0] }

/-- C2: when the operation's `data_sha256_hash` field is present (non-empty)
and the SHA-256 of the raw payload bytes read for the operation differs from
it, `data_for_op` fails with the hash-mismatch assertion, and the error
state carries the output image exactly as it was — the failure happens
before any write. -/
theorem C2_hash_gate (c : Ctx) (op : InstallOp) (st : St)
    (hpres : op.data_sha256_hash ≠ [])
    (hmis : c.sha256 (readAt c.payload (c.dataOffset + op.data_offset) op.data_length) ≠
      op.data_sha256_hash) :
    data_for_op c op st = .error (.assertHashMismatch, st) := by
  unfold data_for_op
  simp [hpres, hmis]

/-- Operation with a mismatching hash, for the C2 witness. -/
def c2Op : InstallOp :=
  { type := .REPLACE
    data_offset := 0
    data_length := 1
    data_sha256_hash := [1]
    src_extents := []
    dst_extents := [⟨0, 1⟩] }

/-- Witness for C2 at a concrete mismatching operation. -/
theorem C2_witness :
    data_for_op demoCtx c2Op { out := [], old := [] } =
      .error (.assertHashMismatch, { out := [], old := [] }) :=
  C2_hash_gate demoCtx c2Op { out := [], old := [] } (by decide) (by decide)

/-- C3: for an 8-byte magic, the classic bsdiff magic selects codec number 1
(which `bsdf2_decompress` interprets as bzip2) for all three streams, a
magic whose first five bytes are the `BSDF2` signature selects the three
codecs individually from bytes 5, 6 and 7, and any other magic fails with
the invalid-magic error. -/
theorem C3_magic (magic : List Nat) (h8 : magic.length = 8) :
    (magic = MAGIC → parseMagic magic = .ok (1, 1, 1)) ∧
    (magic.take 5 = BSDF2_MAGIC →
      parseMagic magic = .ok (magic.getD 5 0, magic.getD 6 0, magic.getD 7 0)) ∧
    (magic ≠ MAGIC → magic.take 5 ≠ BSDF2_MAGIC →
      parseMagic magic = .error .invalidMagic) ∧
    (∀ (bz2d brd : List Nat → Except Err (List Nat)) (data : List Nat),
      bsdf2_decompress bz2d brd 1 data = (bz2d data).map some) := by
  refine ⟨?_, ?_, ?_, ?_⟩
  · intro hm
    simp [parseMagic, hm]
  · intro ht
    have hne : magic ≠ MAGIC := by
      intro hm
      rw [hm] at ht
      exact absurd ht (by decide)
    have h5 : magic[5]? = some (magic.getD 5 0) := by
      rw [List.getD_eq_getElem?_getD, List.getElem?_eq_getElem (by omega)]
      rfl
    have h6 : magic[6]? = some (magic.getD 6 0) := by
      rw [List.getD_eq_getElem?_getD, List.getElem?_eq_getElem (by omega)]
      rfl
    have h7 : magic[7]? = some (magic.getD 7 0) := by
      rw [List.getD_eq_getElem?_getD, List.getElem?_eq_getElem (by omega)]
      rfl
    unfold parseMagic
    rw [if_neg hne, if_pos ht, h5, h6, h7]
  · intro h1 h2
    simp [parseMagic, h1, h2]
  · intro bz br d
    simp [bsdf2_decompress]

/-- Witness for C3 at a concrete BSDF2 magic selecting codecs 0, 1, 2. -/
theorem C3_witness :
    parseMagic [66, 83, 68, 70, 50, 0, 1, 2] = .ok (0, 1, 2) := by
  have h := (C3_magic [66, 83, 68, 70, 50, 0, 1, 2] (by decide)).2.1 (by decide)
  simpa using h

/-- C9: for every algorithm number outside 0, 1, 2 the decompression helper
returns `none` (Python `None`) with no error of any kind; consequently a
BSDF2 patch whose control-codec byte is 3 fails only later, with the
`TypeError` of using `None` as a buffer, not with a codec or patch-format
error at the decompression step. -/
theorem C9_decompress_none :
    (∀ (bz2d brd : List Nat → Except Err (List Nat)) (alg : Nat) (data : List Nat),
      2 < alg → bsdf2_decompress bz2d brd alg data = .ok none) ∧
    (∀ bz2d brd : List Nat → Except Err (List Nat),
      bsdf2_read_patch bz2d brd ([66, 83, 68, 70, 50, 3, 0, 0] ++ List.replicate 24 0) =
        .error .typeErrorNone) := by
  constructor
  · intro bz br alg data h
    have h0 : ¬ alg = 0 := by omega
    have h1 : ¬ alg = 1 := by omega
    have h2 : ¬ alg = 2 := by omega
    simp [bsdf2_decompress, h0, h1, h2]
  · intro bz br
    rfl

/-- Witness for C9 at algorithm number 5. -/
theorem C9_witness : bsdf2_decompress idCodec idCodec 5 [1, 2] = .ok none :=
  C9_decompress_none.1 idCodec idCodec 5 [1, 2] (by decide)

/-- C1: the add step of the patch applier produces each output byte as the
sum, modulo 256, of the diff-stream byte and the corresponding old-data
byte: for a single control tuple `(n, 0, s)` covering the whole output,
the result is exactly the byte-wise wrapping sum of the first `n` diff and
old bytes; and on the concrete scenario (control `[(3,0,2)]`, diff stream
`[1,1,1]`, empty extra stream, old data `[10,20,30,40,50]`, output length
3) the result is `[11,21,31]`. -/
theorem C1_bspatch_add_step :
    (∀ (old diff extra : List Nat) (n : Nat) (s : Int),
      n ≤ old.length → n ≤ diff.length →
      bspatch old (n : Int) [((n : Int), 0, s)] diff extra =
        .ok ((List.range n).map fun i => (diff.getD i 0 + old.getD i 0) % 256)) ∧
    bspatch [10, 20, 30, 40, 50] 3 [(3, 0, 2)] [1, 1, 1] [] = .ok [11, 21, 31] := by
  constructor
  · intro old diff extra n s hold hdiff
    rcases Nat.eq_zero_or_pos n with h0 | hpos
    · subst h0
      simp [bspatch, bspatchGo]
    · unfold bspatch bspatchGo
      simp only [List.length_nil, Nat.cast_zero, Int.toNat_natCast, Int.toNat_zero,
        zero_add, List.nil_append, List.append_nil]
      rw [if_neg (by omega : ¬ ((n : Int) ≤ 0))]
      rw [if_pos hdiff]
      rw [if_pos (Or.inr ⟨le_refl (0 : Int), by omega⟩)]
      rw [if_pos (Nat.zero_le extra.length)]
      simp only [readAt, List.drop_zero, List.take_zero, List.append_nil]
      simp [bspatchGo]
  · decide

/-- Witness for C1's general part at the concrete scenario inputs. -/
theorem C1_witness :
    bspatch [10, 20, 30, 40, 50] ((3 : Nat) : Int) [(((3 : Nat) : Int), 0, 2)] [1, 1, 1] [] =
      .ok ((List.range 3).map fun i =>
        ([1, 1, 1].getD i 0 + [10, 20, 30, 40, 50].getD i 0) % 256) :=
  C1_bspatch_add_step.1 [10, 20, 30, 40, 50] [1, 1, 1] [] 3 2 (by decide) (by decide)


/-- Fuel irrelevance for the control-decoding loop: any budget at least the
buffer length gives the same result. -/
theorem decodeControlGo_fuel (f1 : Nat) :
    ∀ (f2 : Nat) (b : List Nat), b.length ≤ f1 → b.length ≤ f2 →
      decodeControlGo f1 b = decodeControlGo f2 b := by
  induction f1 with
  | zero =>
    intro f2 b h1 h2
    have hb : b = [] := List.length_eq_zero.mp (Nat.le_zero.mp h1)
    subst hb
    cases f2 <;> rfl
  | succ f ih =>
    intro f2 b h1 h2
    cases b with
    | nil => cases f2 <;> rfl
    | cons h t =>
      cases f2 with
      | zero => simp at h2
      | succ f2m =>
        simp only [decodeControlGo]
        have hd : ((h :: t).drop 24).length ≤ f := by
          simp only [List.length_drop, List.length_cons]
          simp only [List.length_cons] at h1
          omega
        have hd2 : ((h :: t).drop 24).length ≤ f2m := by
          simp only [List.length_drop, List.length_cons]
          simp only [List.length_cons] at h2
          omega
        rw [ih f2m ((h :: t).drop 24) hd hd2]

theorem ctrlRecordsGo_fuel (f1 : Nat) :
    ∀ (f2 : Nat) (b : List Nat), b.length ≤ f1 → b.length ≤ f2 →
      ctrlRecordsGo f1 b = ctrlRecordsGo f2 b := by
  induction f1 with
  | zero =>
    intro f2 b h1 h2
    have hb : b = [] := List.length_eq_zero.mp (Nat.le_zero.mp h1)
    subst hb
    cases f2 <;> rfl
  | succ f ih =>
    intro f2 b h1 h2
    cases b with
    | nil => cases f2 <;> rfl
    | cons h t =>
      cases f2 with
      | zero => simp at h2
      | succ f2m =>
        simp only [ctrlRecordsGo]
        have hd : ((h :: t).drop 24).length ≤ f := by
          simp only [List.length_drop, List.length_cons]
          simp only [List.length_cons] at h1
          omega
        have hd2 : ((h :: t).drop 24).length ≤ f2m := by
          simp only [List.length_drop, List.length_cons]
          simp only [List.length_cons] at h2
          omega
        rw [ih f2m ((h :: t).drop 24) hd hd2]

theorem decodeControl_cons (h : Nat) (t : List Nat) :
    decodeControl (h :: t) =
      match decode_int64 ((h :: t).take 8) with
      | .error e => .error e
      | .ok x =>
        match decode_int64 (((h :: t).drop 8).take 8) with
        | .error e => .error e
        | .ok y =>
          match decode_int64 (((h :: t).drop 16).take 8) with
          | .error e => .error e
          | .ok z =>
            match decodeControl ((h :: t).drop 24) with
            | .error e => .error e
            | .ok rest => .ok ((x, y, z) :: rest) := by
  unfold decodeControl
  simp only [List.length_cons, decodeControlGo]
  rw [decodeControlGo_fuel t.length ((h :: t).drop 24).length ((h :: t).drop 24)
    (by simp only [List.length_drop, List.length_cons]; omega) (le_refl _)]

theorem ctrlRecords_cons (h : Nat) (t : List Nat) :
    ctrlRecords (h :: t) =
      (decodeInt64P ((h :: t).take 8), decodeInt64P (((h :: t).drop 8).take 8),
        decodeInt64P (((h :: t).drop 16).take 8)) :: ctrlRecords ((h :: t).drop 24) := by
  unfold ctrlRecords
  simp only [List.length_cons, ctrlRecordsGo]
  rw [ctrlRecordsGo_fuel t.length ((h :: t).drop 24).length ((h :: t).drop 24)
    (by simp only [List.length_drop, List.length_cons]; omega) (le_refl _)]

theorem C5_aux : ∀ (N : Nat) (b : List Nat), b.length ≤ N →
    (b.length % 24 ≠ 0 → decodeControl b = .error .eightBytesExpected) ∧
    (b.length % 24 = 0 → decodeControl b = .ok (ctrlRecords b)) := by
  intro N
  induction N with
  | zero =>
    intro b hb
    have : b = [] := List.length_eq_zero.mp (Nat.le_zero.mp hb)
    subst this
    exact ⟨fun hc => absurd rfl hc, fun _ => rfl⟩
  | succ N ih =>
    intro b hb
    cases b with
    | nil => exact ⟨fun hc => absurd rfl hc, fun _ => rfl⟩
    | cons h t =>
      rw [decodeControl_cons]
      have hL : (h :: t).length = t.length + 1 := List.length_cons h t
      have hl1 : ((h :: t).take 8).length = min 8 (t.length + 1) := by
        simp only [List.length_take, List.length_cons]
      have hl2 : (((h :: t).drop 8).take 8).length = min 8 (t.length + 1 - 8) := by
        simp only [List.length_take, List.length_drop, List.length_cons]
      have hl3 : (((h :: t).drop 16).take 8).length = min 8 (t.length + 1 - 16) := by
        simp only [List.length_take, List.length_drop, List.length_cons]
      rcases Nat.lt_or_ge (t.length + 1) 8 with hc8 | hc8
      · have : ((h :: t).take 8).length ≠ 8 := by omega
        rw [decode_int64, if_neg this]
        constructor
        · intro; rfl
        · intro hal
          simp only [List.length_cons] at hal
          omega
      · rw [decode_int64, if_pos (by omega : ((h :: t).take 8).length = 8)]
        rcases Nat.lt_or_ge (t.length + 1) 16 with hc16 | hc16
        · have : (((h :: t).drop 8).take 8).length ≠ 8 := by omega
          rw [decode_int64, if_neg this]
          constructor
          · intro; rfl
          · intro hal
            simp only [List.length_cons] at hal
            omega
        · rw [decode_int64, if_pos (by omega : (((h :: t).drop 8).take 8).length = 8)]
          rcases Nat.lt_or_ge (t.length + 1) 24 with hc24 | hc24
          · have : (((h :: t).drop 16).take 8).length ≠ 8 := by omega
            rw [decode_int64, if_neg this]
            constructor
            · intro; rfl
            · intro hal
              simp only [List.length_cons] at hal
              omega
          · rw [decode_int64, if_pos (by omega : (((h :: t).drop 16).take 8).length = 8)]
            have hdl : ((h :: t).drop 24).length = t.length + 1 - 24 := by
              simp [List.length_drop]
            have hrec := ih ((h :: t).drop 24) (by omega)
            constructor
            · intro hmis
              simp only [List.length_cons] at hmis
              have : ((h :: t).drop 24).length % 24 ≠ 0 := by
                rw [hdl]
                omega
              rw [hrec.1 this]
            · intro hal
              simp only [List.length_cons] at hal
              have : ((h :: t).drop 24).length % 24 = 0 := by
                rw [hdl]
                omega
              rw [hrec.2 this, ctrlRecords_cons]

/-- C5 amended: a decompressed control stream whose length is not a
multiple of 24 makes the decoder fail — but with the 8-bytes-expected
`ValueError` raised by `decode_int64` on the short final slice, not with a
dedicated misaligned-control-stream error (the code has no such check);
when the length is a multiple of 24 the stream is partitioned into 24-byte
records, each decoded as three signed 64-bit sign-magnitude little-endian
integers, in stream order. -/
theorem C5_control_amended (b : List Nat) :
    (b.length % 24 ≠ 0 → decodeControl b = .error .eightBytesExpected) ∧
    (b.length % 24 = 0 → decodeControl b = .ok (ctrlRecords b)) :=
  C5_aux b.length b (le_refl b.length)

/-- C5 counterexample: a 25-byte control stream (not a multiple of 24)
makes the decoder fail with the 8-bytes-expected error of `decode_int64`,
which is not the misaligned-control-stream error the claim names. -/
theorem C5_counterexample :
    decodeControl (List.replicate 25 0) = .error .eightBytesExpected ∧
    decodeControl (List.replicate 25 0) ≠ .error .misalignedControl := by
  exact ⟨by decide, by decide⟩

/-- Witness for C5 at a concrete aligned control stream. -/
theorem C5_witness :
    decodeControl (List.replicate 24 0) = .ok (ctrlRecords (List.replicate 24 0)) :=
  (C5_control_amended (List.replicate 24 0)).2 (by decide)



/-- Appending two consecutive runs of naturals gives one longer run. -/
theorem natsFrom_append (s n m : Nat) :
    natsFrom s n ++ natsFrom (s + n) m = natsFrom s (n + m) := by
  unfold natsFrom
  rw [List.range_add, List.map_append, List.map_map]
  congr 1
  apply List.map_congr_left
  intro i _
  simp
  omega

theorem natsFrom_getElem0 (s n : Nat) (h : 0 < n) :
    (natsFrom s n)[0]? = some s := by
  unfold natsFrom
  rw [List.getElem?_map]
  rw [List.getElem?_range h]
  simp

theorem natsFrom_length (s n : Nat) : (natsFrom s n).length = n := by
  simp [natsFrom]

/-- Loop invariant of `verify_contiguous`: with the running counter at `b`,
the loop accepts exactly when the extents cover the consecutive blocks
from `b` on, in order, with no gap and no overlap. -/
theorem verify_aux_iff (exts : List Extent) :
    ∀ b : Nat, (∀ e ∈ exts, 0 < e.num_blocks) →
      (verify_contiguousAux exts b = true ↔
        blocksOf exts = natsFrom b (totalBlocks exts)) := by
  induction exts with
  | nil =>
    intro b _
    simp [verify_contiguousAux, blocksOf, joinAll, totalBlocks, natsFrom]
  | cons e rest ih =>
    intro b hpos
    have hbl : blocksOf (e :: rest) =
        natsFrom e.start_block e.num_blocks ++ blocksOf rest := by
      simp [blocksOf, joinAll]
    have htot : totalBlocks (e :: rest) = e.num_blocks + totalBlocks rest := by
      simp [totalBlocks]
    by_cases hs : e.start_block = b
    · rw [verify_contiguousAux, if_neg (by simp [hs])]
      rw [hbl, htot, hs]
      rw [← natsFrom_append b e.num_blocks (totalBlocks rest)]
      constructor
      · intro hrec
        have := (ih (b + e.num_blocks) (fun x hx => hpos x (List.mem_cons_of_mem e hx))).mp hrec
        rw [this]
      · intro heq
        have h2 := List.append_cancel_left heq
        exact (ih (b + e.num_blocks) (fun x hx => hpos x (List.mem_cons_of_mem e hx))).mpr h2
    · rw [verify_contiguousAux, if_pos (by simp [hs])]
      constructor
      · intro hfalse
        exact absurd hfalse (by simp)
      · intro heq
        exfalso
        have he : 0 < e.num_blocks := hpos e (List.mem_cons_self e rest)
        have h0 : (blocksOf (e :: rest))[0]? = some e.start_block := by
          rw [hbl]
          rw [List.getElem?_append_left (by rw [natsFrom_length]; omega)]
          exact natsFrom_getElem0 e.start_block e.num_blocks he
        have h1 : (natsFrom b (totalBlocks (e :: rest)))[0]? = some b := by
          apply natsFrom_getElem0
          rw [htot]
          omega
        rw [heq] at h0
        rw [h0] at h1
        exact hs (Option.some.inj h1)

/-- C7: for extents with non-empty block runs, `verify_contiguous` returns
true exactly when the extents, in appearance order, cover the block range
from 0 to the total block count with no gaps and no overlaps (their
concatenated block lists form exactly the range); and on the claim's two
examples it returns false for a gapped list and true for a contiguous
one. -/
theorem C7_verify_contiguous :
    (∀ exts : List Extent, (∀ e ∈ exts, 0 < e.num_blocks) →
      (verify_contiguous exts = true ↔
        blocksOf exts = List.range (totalBlocks exts))) ∧
    verify_contiguous [⟨0, 2⟩, ⟨3, 1⟩] = false ∧
    verify_contiguous [⟨0, 2⟩, ⟨2, 3⟩] = true := by
  refine ⟨?_, by decide, by decide⟩
  intro exts hpos
  rw [verify_contiguous]
  rw [verify_aux_iff exts 0 hpos]
  have : natsFrom 0 (totalBlocks exts) = List.range (totalBlocks exts) := by
    unfold natsFrom
    simp
  rw [this]

/-- Witness for C7's general part at the contiguous example. -/
theorem C7_witness :
    verify_contiguous [(⟨0, 2⟩ : Extent), ⟨2, 3⟩] = true ↔
      blocksOf [(⟨0, 2⟩ : Extent), ⟨2, 3⟩] = List.range (totalBlocks [(⟨0, 2⟩ : Extent), ⟨2, 3⟩]) :=
  C7_verify_contiguous.1 [⟨0, 2⟩, ⟨2, 3⟩] (by decide)


/-- Every branch of `data_for_op` leaves the old image untouched: the
success state and any failure state carry `st.old` unchanged. -/
theorem data_for_op_old (c : Ctx) (op : InstallOp) (st : St) :
    ∀ x, data_for_op c op st = x →
      (∀ st₁ d, x = .ok (st₁, d) → st₁.old = st.old) ∧
      (∀ e st₁, x = .error (e, st₁) → st₁.old = st.old) := by
  intro x hx
  simp only [data_for_op, op_dispatch, source_bsdiff_branch, replace_write] at hx
  repeat' split at hx
  all_goals subst hx
  all_goals constructor
  all_goals intro a b h
  all_goals cases h
  all_goals rfl


/-- C10: the source (old) image is only ever read, never written: running
any sequence of operations leaves the old-image component of the file
state unchanged, whether the run succeeds or fails. -/
theorem C10_old_frame (c : Ctx) (ops : List InstallOp) (st : St) :
    (∀ st₁, runOps c ops st = .ok st₁ → st₁.old = st.old) ∧
    (∀ e st₁, runOps c ops st = .error (e, st₁) → st₁.old = st.old) := by
  induction ops generalizing st with
  | nil =>
    refine ⟨?_, ?_⟩
    · intro st₁ h
      simp only [runOps, Except.ok.injEq] at h
      rw [← h]
    · intro e st₁ h
      simp only [runOps] at h
      cases h
  | cons op rest ih =>
    refine ⟨?_, ?_⟩
    · intro st₁ h
      simp only [runOps] at h
      split at h
      · rename_i st₂ d heq
        have h2 := (data_for_op_old c op st _ heq).1 st₂ d rfl
        have h3 := (ih st₂).1 st₁ h
        rw [h3, h2]
      · cases h
    · intro e st₁ h
      simp only [runOps] at h
      split at h
      · rename_i st₂ d heq
        have h2 := (data_for_op_old c op st _ heq).1 st₂ d rfl
        have h3 := (ih st₂).2 e st₁ h
        rw [h3, h2]
      · rename_i p heq
        cases h
        exact (data_for_op_old c op st _ heq).2 e st₁ rfl

/-- Witness for C10 on a concrete failing one-operation run. -/
theorem C10_witness :
    (runOps demoCtx [c2Op] { out := [], old := [3, 4] } = .error
      (.assertHashMismatch, { out := [], old := [3, 4] })) ∧
    ({ out := [], old := [3, 4] } : St).old = [3, 4] :=
  ⟨by decide, (C10_old_frame demoCtx [c2Op] { out := [], old := [3, 4] }).2
    .assertHashMismatch { out := [], old := [3, 4] } (by decide)⟩


/-- Writing zeros anywhere preserves a zero byte. -/
theorem writeAt_zero_preserves (f : List Nat) (p : Nat) (n i : Nat)
    (h : f[i]? = some 0) : (writeAt f p (List.replicate n 0))[i]? = some 0 := by
  by_cases hn : (List.replicate n 0 : List Nat) = []
  · rw [writeAt, if_pos hn]
    exact h
  · rw [writeAt, if_neg hn, writeAtPad_getElem?]
    rcases Nat.lt_or_ge i p with h1 | h1
    · rw [if_pos h1, List.getD_eq_getElem?_getD, h]
      rfl
    · rw [if_neg (Nat.not_lt.mpr h1)]
      simp only [List.length_replicate]
      rcases Nat.lt_or_ge i (p + n) with h2 | h2
      · rw [if_pos h2, List.getElem?_replicate, if_pos (by omega : i - p < n)]
      · rw [if_neg (Nat.not_lt.mpr h2)]
        exact h

theorem zeroFold_preserves (bs : Nat) (exts : List Extent) :
    ∀ (o : List Nat) (i : Nat), o[i]? = some 0 →
      (exts.foldl (fun o e => writeAt o (e.start_block * bs)
        (List.replicate (e.num_blocks * bs) 0)) o)[i]? = some 0 := by
  induction exts with
  | nil => intro o i h; exact h
  | cons e1 rest ih =>
    intro o i h
    simp only [List.foldl_cons]
    exact ih _ i (writeAt_zero_preserves o (e1.start_block * bs) (e1.num_blocks * bs) i h)

theorem zeroFold_sets (bs : Nat) (exts : List Extent) :
    ∀ (o : List Nat), ∀ e ∈ exts, ∀ i, e.start_block * bs ≤ i →
      i < e.start_block * bs + e.num_blocks * bs →
      (exts.foldl (fun o e => writeAt o (e.start_block * bs)
        (List.replicate (e.num_blocks * bs) 0)) o)[i]? = some 0 := by
  induction exts with
  | nil =>
    intro o e he
    exact absurd he (List.not_mem_nil e)
  | cons e1 rest ih =>
    intro o e he i h1 h2
    rcases List.mem_cons.mp he with heq | hmem
    · subst heq
      simp only [List.foldl_cons]
      apply zeroFold_preserves
      have hne : (List.replicate (e.num_blocks * bs) 0 : List Nat) ≠ [] := by
        intro hh
        have hlen := congrArg List.length hh
        simp only [List.length_replicate, List.length_nil] at hlen
        omega
      rw [writeAt, if_neg hne, writeAtPad_getElem?]
      rw [if_neg (by omega : ¬ i < e.start_block * bs)]
      simp only [List.length_replicate]
      rw [if_pos (by omega : i < e.start_block * bs + e.num_blocks * bs)]
      rw [List.getElem?_replicate, if_pos (by omega : i - e.start_block * bs < e.num_blocks * bs)]
    · simp only [List.foldl_cons]
      exact ih _ e hmem i h1 h2

/-- C8: after a successful ZERO operation, every byte of the output image
inside every destination extent's byte range holds the value 0. -/
theorem C8_zero_op (c : Ctx) (op : InstallOp) (st : St) (st₁ : St) (d : List Nat)
    (htype : op.type = .ZERO)
    (hok : data_for_op c op st = .ok (st₁, d)) :
    ∀ e ∈ op.dst_extents, ∀ i, e.start_block * c.blockSize ≤ i →
      i < (e.start_block + e.num_blocks) * c.blockSize →
      st₁.out[i]? = some 0 := by
  intro e he i h1 h2
  rw [Nat.add_mul] at h2
  simp only [data_for_op] at hok
  split at hok
  · cases hok
  · simp only [op_dispatch, htype] at hok
    cases hok
    exact zeroFold_sets c.blockSize op.dst_extents st.out e he i h1 h2

/-- ZERO operation over one extent, for the C8 witness. -/
def c8Op : InstallOp :=
  { type := .ZERO
    data_offset := 0
    data_length := 0
    data_sha256_hash := []
    src_extents := []
    dst_extents := [⟨1, 2⟩] }

/-- Witness for C8 at a concrete ZERO operation and byte index. -/
theorem C8_witness :
    ({ out := [7, 0, 0, 7, 7], old := [] } : St).out[2]? = some 0 :=
  C8_zero_op demoCtx c8Op { out := [7, 7, 7, 7, 7], old := [] }
    { out := [7, 0, 0, 7, 7], old := [] } [] rfl (by decide) ⟨1, 2⟩ (by decide) 2
    (by decide) (by decide)


/-- The source bytes of a copy/diff operation: the reads of the source
extents, concatenated in extent order. -/
def srcConcat (old : List Nat) (bs : Nat) (exts : List Extent) : List Nat :=
  joinAll (exts.map fun e => readAt old (e.start_block * bs) (e.num_blocks * bs))

/-- The sequential write loop of the SOURCE_COPY branch equals one
contiguous write of the concatenated source bytes at the start position. -/
theorem sourceCopy_fold (old : List Nat) (bs : Nat) (exts : List Extent) :
    ∀ (out : List Nat) (pos : Nat) (d0 : List Nat),
      (exts.foldl (fun acc e =>
        let d := readAt old (e.start_block * bs) (e.num_blocks * bs)
        (writeAt acc.1 acc.2.1 d, acc.2.1 + d.length, d)) (out, pos, d0)).1 =
      writeAt out pos (srcConcat old bs exts) := by
  induction exts with
  | nil =>
    intro out pos d0
    simp [srcConcat, joinAll, writeAt_empty]
  | cons e rest ih =>
    intro out pos d0
    simp only [List.foldl_cons]
    rw [ih]
    have hsc : srcConcat old bs (e :: rest) =
        readAt old (e.start_block * bs) (e.num_blocks * bs) ++ srcConcat old bs rest := by
      simp [srcConcat, joinAll]
    rw [hsc, ← writeAt_append]

/-- SOURCE_COPY operation with two non-adjacent destination extents, for
the C4 counterexample: two source blocks against destination extents at
blocks 0 and 2 (block size 1). -/
def c4Op : InstallOp :=
  { type := .SOURCE_COPY
    data_offset := 0
    data_length := 0
    data_sha256_hash := []
    src_extents := [⟨0, 2⟩]
    dst_extents := [⟨0, 1⟩, ⟨2, 1⟩] }

/-- C4 counterexample: with dst extents at blocks 0 and 2 and output file
`[9,9,9,9]`, the code writes the two source bytes `[5,6]` contiguously at
offset 0, producing `[5,6,9,9]` with the byte at offset 2 untouched —
whereas splitting the buffer across the dst extents, as the claim states,
would produce `[5,9,6,9]`. -/
theorem C4_counterexample :
    data_for_op demoCtx c4Op { out := [9, 9, 9, 9], old := [5, 6] } =
      .ok ({ out := [5, 6, 9, 9], old := [5, 6] }, [5, 6]) ∧
    writeAt (writeAt [9, 9, 9, 9] 0 [5]) 2 [6] = [5, 9, 6, 9] ∧
    ([5, 6, 9, 9] : List Nat) ≠ [5, 9, 6, 9] := by
  exact ⟨by decide, by decide, by decide⟩

/-- C4 amended: a successful SOURCE_COPY writes the source extents' bytes,
concatenated in extent order, contiguously into the output image starting
at the byte offset of the first destination extent only; destination
extents after the first do not receive data at their own offsets. -/
theorem C4_source_copy_amended (c : Ctx) (op : InstallOp) (st : St) (st₁ : St) (d : List Nat)
    (htype : op.type = .SOURCE_COPY)
    (hok : data_for_op c op st = .ok (st₁, d)) :
    ∀ d0 rest, op.dst_extents = d0 :: rest →
      st₁.out = writeAt st.out (d0.start_block * c.blockSize)
        (srcConcat st.old c.blockSize op.src_extents) := by
  intro d0 rest hdst
  simp only [data_for_op] at hok
  split at hok
  · cases hok
  · simp only [op_dispatch, htype] at hok
    split at hok
    · cases hok
    · rw [hdst] at hok
      simp only at hok
      cases hok
      exact sourceCopy_fold st.old c.blockSize op.src_extents st.out
        (d0.start_block * c.blockSize) _

/-- Witness for C4's amended statement at the counterexample scenario. -/
theorem C4_witness :
    ({ out := [5, 6, 9, 9], old := [5, 6] } : St).out =
      writeAt [9, 9, 9, 9] (0 * 1) (srcConcat [5, 6] 1 [⟨0, 2⟩]) :=
  C4_source_copy_amended demoCtx c4Op { out := [9, 9, 9, 9], old := [5, 6] }
    { out := [5, 6, 9, 9], old := [5, 6] } [5, 6] rfl (by decide) ⟨0, 1⟩ [⟨2, 1⟩] rfl


/-- Operation of an unrecognized type (numeric value 255), for C6. -/
def c6UnsupOp : InstallOp :=
  { type := .other 255
    data_offset := 0
    data_length := 0
    data_sha256_hash := []
    src_extents := []
    dst_extents := [⟨0, 1⟩] }

/-- First partition of the C6 scenario, holding the unsupported
operation. -/
def c6P1 : Part := { partition_name := "sys", operations := [c6UnsupOp] }

/-- Second partition of the C6 scenario, holding an ordinary ZERO
operation that would succeed. -/
def c6P2 : Part := { partition_name := "vend", operations := [c8Op] }

/-- C6 counterexample: in a run over two partitions where the first hits
an unsupported operation type, the whole run stops with the `sys.exit(-1)`
error and the second partition never appears in the processed outputs —
the failure is not contained to the first partition. -/
theorem C6_counterexample :
    runParts demoCtx (fun _ => []) [c6P1, c6P2] [] =
      .error (.sysExit (-1), [("sys", [])]) ∧
    ([("sys", ([] : List Nat))].all fun q => q.1 ≠ "vend") = true := by
  exact ⟨by decide, by decide⟩

/-- C6 amended: an unsupported operation type makes `data_for_op` fail
with `sys.exit(-1)` before writing any bytes (the error state carries the
files unchanged), and any partition failure — this one included —
propagates out of the partition loop immediately, so no later partition is
attempted. -/
theorem C6_unsupported_amended :
    (∀ (c : Ctx) (op : InstallOp) (st : St) (n : Nat),
      op.type = .other n → op.data_sha256_hash = [] →
      data_for_op c op st = .error (.sysExit (-1), st)) ∧
    (∀ (c : Ctx) (oldFor : String → List Nat) (p : Part) (rest : List Part)
        (acc : List (String × List Nat)) (e : Err) (st : St),
      dump_part c oldFor p = .error (e, st) →
      runParts c oldFor (p :: rest) acc = .error (e, acc ++ [(p.partition_name, st.out)])) := by
  constructor
  · intro c op st n htype hnohash
    simp [data_for_op, hnohash, op_dispatch, htype]
  · intro c oldFor p rest acc e st h
    simp only [runParts]
    rw [h]

/-- Witness for C6's amended statement at the concrete unsupported
operation. -/
theorem C6_witness :
    data_for_op demoCtx c6UnsupOp { out := [], old := [] } =
      .error (.sysExit (-1), { out := [], old := [] }) :=
  C6_unsupported_amended.1 demoCtx c6UnsupOp { out := [], old := [] } 255 rfl rfl

end PayloadDumper
